import Mathlib

/-!
# Similar-product recommendation service: verification development

A shallow embedding, in Lean 4, of the core of the
similar-product-recommendation service (Python source):

* the `Product` entity with its dict round trip
  (`src/app/domain/entities/product.py`);
* the Qdrant-backed repository: payload construction, upsert, retrieve,
  filtered nearest-neighbour search, `get_product_by_id`,
  `find_similar_products`
  (`src/app/infrastructure/repositories/qdrant_product_repository.py`);
* the recommendation use case `execute`
  (`src/app/application/use_cases/get_product_recommendations.py`);
* the batch pipeline's numeric coercion, price conversion (with an exact
  model of IEEE-754 binary64 rounding as far as the claims need it) and
  persist stage (`src/app/infrastructure/batch/embedding_pipeline.py`).

Python floats are modelled as the exact rational value of the binary64
double they denote; the double-rounding step is made explicit where the
source performs float arithmetic.  Machine state (the Qdrant collection)
is a list of indexed points threaded explicitly.  Fallible Python code
(raising / try-except) is modelled with `Option` / `Except`.
-/

/-- Python values as they occur in the product dicts of this code base:
`None`, `str`, `float`, `int`, and `list[float]`. -/
inductive PyValue where
  | pnone : PyValue
  | pstr : String → PyValue
  | pfloat : ℚ → PyValue
  | pint : ℤ → PyValue
  | plist : List ℚ → PyValue
deriving DecidableEq, Repr

/-- A Python dict with string keys, as an association list (insertion
order preserved, as in Python). -/
abbrev PyDict := List (String × PyValue)

/-- `d[k]` lookup that returns `none` when the key is absent
(modelling `dict.get` / guarded `dict[...]` access). -/
def dictLookup (k : String) (d : PyDict) : Option PyValue :=
  (d.find? (fun kv => kv.1 == k)).map (fun kv => kv.2)

/-- The `Product` pydantic entity (`src/app/domain/entities/product.py`).
Floats are modelled as exact rationals. -/
structure Product where
  product_id : String
  product_name : String
  main_category : String
  sub_category : String
  ratings : Option ℚ := none
  no_of_ratings : Option ℤ := none
  price : String
  price_usd : Option String := none
  embedding : Option (List ℚ) := none
deriving DecidableEq, Repr

/-- Wrap an optional float for a dict value (`None` ↦ `pnone`). -/
def pyOfOptFloat : Option ℚ → PyValue
  | none => .pnone
  | some q => .pfloat q

/-- Wrap an optional int for a dict value. -/
def pyOfOptInt : Option ℤ → PyValue
  | none => .pnone
  | some n => .pint n

/-- Wrap an optional string for a dict value. -/
def pyOfOptStr : Option String → PyValue
  | none => .pnone
  | some s => .pstr s

/-- Wrap an optional float list for a dict value. -/
def pyOfOptList : Option (List ℚ) → PyValue
  | none => .pnone
  | some l => .plist l

/-- `Product.to_dict`: the nine-entry dict literal of the source, in
source order. -/
def Product.to_dict (p : Product) : PyDict :=
  [("product_id", .pstr p.product_id),
   ("product_name", .pstr p.product_name),
   ("main_category", .pstr p.main_category),
   ("sub_category", .pstr p.sub_category),
   ("ratings", pyOfOptFloat p.ratings),
   ("no_of_ratings", pyOfOptInt p.no_of_ratings),
   ("price", .pstr p.price),
   ("price_usd", pyOfOptStr p.price_usd),
   ("embedding", pyOfOptList p.embedding)]

/-- Pydantic validation of a required `str` field. -/
def asStr : PyValue → Option String
  | .pstr s => some s
  | _ => none

/-- Pydantic validation of an `Optional[float]` field (accepts an int,
which pydantic coerces to float; accepts `None` and an absent key). -/
def asOptFloat : Option PyValue → Option (Option ℚ)
  | none => some none
  | some .pnone => some none
  | some (.pfloat q) => some (some q)
  | some (.pint n) => some (some (n : ℚ))
  | some _ => none

/-- Pydantic validation of an `Optional[int]` field. -/
def asOptInt : Option PyValue → Option (Option ℤ)
  | none => some none
  | some .pnone => some none
  | some (.pint n) => some (some n)
  | some _ => none

/-- Pydantic validation of an `Optional[str]` field. -/
def asOptStr : Option PyValue → Option (Option String)
  | none => some none
  | some .pnone => some none
  | some (.pstr s) => some (some s)
  | some _ => none

/-- Pydantic validation of an `Optional[List[float]]` field. -/
def asOptList : Option PyValue → Option (Option (List ℚ))
  | none => some none
  | some .pnone => some none
  | some (.plist l) => some (some l)
  | some _ => none

/-- `Product.from_dict` = `cls(**data)`: pydantic construction from a
dict; fails (raises `ValidationError`, modelled as `none`) when a
required field is missing or a field has the wrong type.  Optional
fields default to `None` when absent. -/
def Product.from_dict (d : PyDict) : Option Product := do
  let pid ← dictLookup "product_id" d >>= asStr
  let pname ← dictLookup "product_name" d >>= asStr
  let mcat ← dictLookup "main_category" d >>= asStr
  let scat ← dictLookup "sub_category" d >>= asStr
  let ratings ← asOptFloat (dictLookup "ratings" d)
  let nrat ← asOptInt (dictLookup "no_of_ratings" d)
  let price ← dictLookup "price" d >>= asStr
  let pusd ← asOptStr (dictLookup "price_usd" d)
  let emb ← asOptList (dictLookup "embedding" d)
  some { product_id := pid, product_name := pname, main_category := mcat,
         sub_category := scat, ratings := ratings, no_of_ratings := nrat,
         price := price, price_usd := pusd, embedding := emb }

/-! ## The Qdrant-backed repository
(`src/app/infrastructure/repositories/qdrant_product_repository.py`)

The Qdrant collection is modelled as a list of indexed points; the
client's `retrieve` is lookup by id, `upsert` is replace-or-append
keyed by id, and `search` is "filter by payload condition, order by the
index's distance function ascending, truncate".  The distance function
is an explicit parameter (the source uses the index's cosine metric,
opaque at this boundary). -/

/-- The payload dict built by `_product_to_point`: it has exactly the
seven keys of the source's dict literal (`product_id`, `product_name`,
`main_category`, `sub_category`, `ratings`, `no_of_ratings`, `price`)
— note, no `price_usd` key. -/
structure Payload where
  product_id : String
  product_name : String
  main_category : String
  sub_category : String
  ratings : Option ℚ
  no_of_ratings : Option ℤ
  price : String
deriving DecidableEq, Repr

/-- The payload of `_product_to_point` rendered as the literal Python
dict it is in the source (same seven entries, source order).  This is
the same object as `productPayload`, viewed as a dict so that key-set
facts can be stated. -/
def product_to_point_payload_dict (p : Product) : PyDict :=
  [("product_id", .pstr p.product_id),
   ("product_name", .pstr p.product_name),
   ("main_category", .pstr p.main_category),
   ("sub_category", .pstr p.sub_category),
   ("ratings", pyOfOptFloat p.ratings),
   ("no_of_ratings", pyOfOptInt p.no_of_ratings),
   ("price", .pstr p.price)]

/-- Structured view of the payload built by `_product_to_point`. -/
def productPayload (p : Product) : Payload :=
  { product_id := p.product_id, product_name := p.product_name,
    main_category := p.main_category, sub_category := p.sub_category,
    ratings := p.ratings, no_of_ratings := p.no_of_ratings,
    price := p.price }

/-- A persisted point: `(id, vector, payload)` as produced by
`_product_to_point`. -/
structure IndexedPoint where
  id : String
  vector : List ℚ
  payload : Payload
deriving DecidableEq, Repr

/-- The state of the Qdrant collection. -/
structure QdrantState where
  points : List IndexedPoint
deriving DecidableEq, Repr

/-- `client.retrieve(ids=[pid])`: all stored points whose id is `pid`. -/
def retrieve (st : QdrantState) (pid : String) : List IndexedPoint :=
  st.points.filter (fun pt => pt.id == pid)

/-- Upsert of a single point: overwrite the point sharing the same id
if one exists, otherwise append. -/
def upsertOne (st : QdrantState) (pt : IndexedPoint) : QdrantState :=
  if st.points.any (fun q => q.id == pt.id) then
    ⟨st.points.map (fun q => if q.id == pt.id then pt else q)⟩
  else ⟨st.points ++ [pt]⟩

/-- `client.upsert(points=pts)`: upsert each point in order. -/
def upsertMany (st : QdrantState) (pts : List IndexedPoint) : QdrantState :=
  pts.foldl upsertOne st

/-- Ordering of scored points by the score attached by the index
(ascending distance, the index's "nearest first"). -/
def scoreLE (a b : IndexedPoint × ℚ) : Prop := a.2 ≤ b.2

instance : DecidableRel scoreLE := fun a b => inferInstanceAs (Decidable (a.2 ≤ b.2))

instance : IsTotal (IndexedPoint × ℚ) scoreLE := ⟨fun a b => le_total a.2 b.2⟩

instance : IsTrans (IndexedPoint × ℚ) scoreLE := ⟨fun _ _ _ h1 h2 => le_trans h1 h2⟩

/-- `client.search(query_vector, limit, query_filter)`: score every
stored point passing the payload filter with the index's distance to
the query vector, order nearest first, and return at most `lim`
points with their scores. -/
def searchPoints (dist : List ℚ → List ℚ → ℚ) (st : QdrantState)
    (queryVec : List ℚ) (filt : IndexedPoint → Bool) (lim : ℕ) :
    List (IndexedPoint × ℚ) :=
  (List.insertionSort scoreLE
    ((st.points.filter filt).map (fun pt => (pt, dist queryVec pt.vector)))).take lim

/-- `_product_to_point`: requires a non-empty embedding
(`if not product.embedding: raise ValueError(...)`), then returns
`(product_id, embedding, payload)`. -/
def product_to_point (p : Product) : Except String IndexedPoint :=
  match p.embedding with
  | some (x :: xs) => .ok ⟨p.product_id, x :: xs, productPayload p⟩
  | _ => .error "Product must have an embedding"

/-- `_point_to_product`: rebuild a `Product` from a stored payload.
The source passes only the seven payload fields to the constructor, so
`price_usd` and `embedding` take their pydantic defaults (`None`). -/
def point_to_product (pl : Payload) : Product :=
  { product_id := pl.product_id, product_name := pl.product_name,
    main_category := pl.main_category, sub_category := pl.sub_category,
    ratings := pl.ratings, no_of_ratings := pl.no_of_ratings,
    price := pl.price }

/-- `save_product`: raises `ValueError` when the embedding is missing
or empty, otherwise upserts the single point.  `vector_size` is the
repository's configured dimensionality; the source never consults it
on this path. -/
def save_product (vector_size : ℕ) (st : QdrantState) (p : Product) :
    Except String QdrantState :=
  match product_to_point p with
  | .error e => .error e
  | .ok pt => .ok (upsertOne st pt)

/-- The point-building loop of `batch_save_products`: raises on the
first product without an embedding, otherwise yields the point list in
order. -/
def buildPoints : List Product → Except String (List IndexedPoint)
  | [] => .ok []
  | p :: ps =>
    match product_to_point p with
    | .error e => .error e
    | .ok pt =>
      match buildPoints ps with
      | .error e => .error e
      | .ok pts => .ok (pt :: pts)

/-- `batch_save_products`: build all points (aborting on the first
product without an embedding), then upsert them in one call. -/
def batch_save_products (st : QdrantState) (ps : List Product) :
    Except String QdrantState :=
  match buildPoints ps with
  | .error e => .error e
  | .ok pts => .ok (upsertMany st pts)

/-- `get_product_by_id`: retrieve by id; absent ↦ `None`, otherwise the
first retrieved point converted by `_point_to_product`.  (The
`except Exception` arm of the source is modelled separately by
`get_product_by_id_fallible`.) -/
def get_product_by_id (st : QdrantState) (pid : String) : Option Product :=
  match retrieve st pid with
  | [] => none
  | pt :: _ => some (point_to_product pt.payload)

/-- Backend outcome of one `client.retrieve` call: either the point
list, or a raised exception (connection loss, schema mismatch, ...). -/
inductive QdrantResult (α : Type) where
  | ok : α → QdrantResult α
  | err : String → QdrantResult α
deriving DecidableEq, Repr

/-- `get_product_by_id` with the backend call's outcome made explicit:
the source wraps the call in `try ... except Exception: print(...);
return None`, so every backend failure is caught and reported as
`None`, exactly as an absent id is. -/
def get_product_by_id_fallible (r : QdrantResult (List IndexedPoint)) :
    Option Product :=
  match r with
  | .err _ => none
  | .ok [] => none
  | .ok (pt :: _) => some (point_to_product pt.payload)

/-- `find_similar_products`: fetch the anchor (absent ↦ `[]`), fetch
its vector, search the top `lim + 1` points sharing the anchor's
`sub_category`, drop any result whose id is the anchor's, convert, and
truncate to `lim`.  (The source's `distance_threshold` parameter is
never used in its body and is omitted.) -/
def find_similar_products (dist : List ℚ → List ℚ → ℚ) (st : QdrantState)
    (pid : String) (lim : ℕ) : List (Product × ℚ) :=
  match get_product_by_id st pid with
  | none => []
  | some product =>
    match retrieve st pid with
    | [] => []
    | pt :: _ =>
      let res := searchPoints dist st pt.vector
        (fun q => q.payload.sub_category == product.sub_category) (lim + 1)
      ((res.filter (fun r => r.1.id != pid)).map
        (fun r => (point_to_product r.1.payload, r.2))).take lim

/-- The partial product projection surfaced in a recommendation:
the dict `{product_id, category, sub_category, price}` built by the
use case. -/
structure RecProjection where
  product_id : String
  category : String
  sub_category : String
  price : Option String
deriving DecidableEq, Repr

/-- `ProductRecommendation`: a projection plus the raw distance. -/
structure ProductRecommendation where
  product : RecProjection
  distance : ℚ
deriving DecidableEq, Repr

/-- `Recommendations`: the ordered result sequence. -/
structure Recommendations where
  results : List ProductRecommendation
deriving DecidableEq, Repr

/-- `GetProductRecommendationsUseCase.execute`: `None` when the anchor
is absent, otherwise the similar products projected to
`{product_id, category = main_category, sub_category,
price = price_usd}` with their distances, order preserved. -/
def execute (dist : List ℚ → List ℚ → ℚ) (st : QdrantState)
    (pid : String) (lim : ℕ) : Option Recommendations :=
  match get_product_by_id st pid with
  | none => none
  | some _ =>
    let sims := find_similar_products dist st pid lim
    some ⟨sims.map (fun pr =>
      { product := { product_id := pr.1.product_id,
                     category := pr.1.main_category,
                     sub_category := pr.1.sub_category,
                     price := pr.1.price_usd },
        distance := pr.2 })⟩

/-! ## The embedding pipeline
(`src/app/infrastructure/batch/embedding_pipeline.py`)

`convert_price_to_usd` does Python float arithmetic; it is modelled
exactly: a Python float is the rational value of the binary64 double it
denotes, and every operation producing a float rounds its exact result
to the nearest double (ties to even).  Overflow and subnormals do not
occur in the claims' range and are not modelled. -/

/-- Decimal digit test. -/
def isDigitCh (c : Char) : Bool := '0' <= c && c <= '9'

/-- Python whitespace, as stripped by `float(str)` / `pd.to_numeric`. -/
def isSpaceCh (c : Char) : Bool :=
  c = ' ' || c = '\t' || c = '\n' || c = '\r'

/-- Strip leading and trailing whitespace. -/
def stripSpaces (cs : List Char) : List Char :=
  ((cs.dropWhile isSpaceCh).reverse.dropWhile isSpaceCh).reverse

/-- Value of a digit string (most significant first). -/
def natOfDigits (cs : List Char) : ℕ :=
  cs.foldl (fun a c => 10 * a + (c.toNat - 48)) 0

/-- The exact rational denoted by integer digits `ip` and fraction
digits `fp`. -/
def ratOfDecimal (ip fp : List Char) : ℚ :=
  Rat.divInt ((natOfDigits ip * 10 ^ fp.length + natOfDigits fp : ℕ) : ℤ)
    (((10 : ℕ) ^ fp.length : ℕ) : ℤ)

/-- `m · 10 ^ e` over ℚ, for an integer exponent. -/
def ratScalePow10 (m : ℚ) (e : ℤ) : ℚ :=
  if 0 ≤ e then Rat.divInt (m.num * (((10 : ℕ) ^ e.toNat : ℕ) : ℤ)) (m.den : ℤ)
  else Rat.divInt m.num ((m.den : ℤ) * (((10 : ℕ) ^ (-e).toNat : ℕ) : ℤ))

/-- `q · 2 ^ s` over ℚ, exactly. -/
def ratMulPow2 (q : ℚ) (s : ℤ) : ℚ :=
  if 0 ≤ s then Rat.divInt (q.num * (((2 : ℕ) ^ s.toNat : ℕ) : ℤ)) (q.den : ℤ)
  else Rat.divInt q.num ((q.den : ℤ) * (((2 : ℕ) ^ (-s).toNat : ℕ) : ℤ))

/-- `2 ^ e` over ℚ for an integer exponent. -/
def qpow2 (e : ℤ) : ℚ :=
  if 0 ≤ e then Rat.divInt (((2 : ℕ) ^ e.toNat : ℕ) : ℤ) 1
  else Rat.divInt 1 (((2 : ℕ) ^ (-e).toNat : ℕ) : ℤ)

/-- Parse an unsigned decimal mantissa: `digits`, `digits.digits`,
`digits.` or `.digits` (at least one digit overall). -/
def parseMantissa (cs : List Char) : Option ℚ :=
  let ip := cs.takeWhile isDigitCh
  let rest := cs.dropWhile isDigitCh
  match rest with
  | [] => if ip.isEmpty then none else some (ratOfDecimal ip [])
  | '.' :: fp =>
    if fp.all isDigitCh ∧ ¬(ip.isEmpty ∧ fp.isEmpty) then
      some (ratOfDecimal ip fp)
    else none
  | _ => none

/-- Parse a signed decimal integer (exponent part). -/
def parseSignedInt (cs : List Char) : Option ℤ :=
  match cs with
  | '+' :: ds =>
    if ds.isEmpty ∨ ¬ds.all isDigitCh then none else some (natOfDigits ds : ℤ)
  | '-' :: ds =>
    if ds.isEmpty ∨ ¬ds.all isDigitCh then none else some (-(natOfDigits ds : ℤ))
  | ds => if ds.isEmpty ∨ ¬ds.all isDigitCh then none else some (natOfDigits ds : ℤ)

/-- Parse an unsigned decimal number with optional exponent. -/
def parseUnsignedNumber (cs : List Char) : Option ℚ :=
  let mant := cs.takeWhile (fun c => c ≠ 'e' ∧ c ≠ 'E')
  let rest := cs.dropWhile (fun c => c ≠ 'e' ∧ c ≠ 'E')
  match rest with
  | [] => parseMantissa mant
  | _ :: ex => do
    let m ← parseMantissa mant
    let e ← parseSignedInt ex
    some (ratScalePow10 m e)

/-- The exact rational value of a decimal numeral string, or `none`
when the string is not a number.  This is the common numeric grammar
behind Python's `float(str)` and pandas' `to_numeric`: optional
surrounding whitespace, optional sign, digits with an optional point
and an optional exponent. -/
def parsePyNumber (s : String) : Option ℚ :=
  match stripSpaces s.toList with
  | '+' :: cs => parseUnsignedNumber cs
  | '-' :: cs => (parseUnsignedNumber cs).map (fun q => -q)
  | cs => parseUnsignedNumber cs

/-- Round a rational to the nearest integer, ties to even.
`2·(q - ⌊q⌋)` is compared with `1` via the cross-multiplied integer
inequality `2·(num - ⌊q⌋·den)` versus `den`. -/
def roundHalfEvenQ (q : ℚ) : ℤ :=
  let f := q.floor
  let twice := 2 * (q.num - f * (q.den : ℤ))
  if twice < (q.den : ℤ) then f
  else if (q.den : ℤ) < twice then f + 1
  else if f % 2 = 0 then f else f + 1

/-- Bit-length recursion on explicit fuel (the first argument). -/
def bitLenAux : ℕ → ℕ → ℕ
  | 0, _ => 0
  | fuel + 1, n => if n ≤ 1 then 0 else bitLenAux fuel (n / 2) + 1

/-- `⌊log₂ n⌋` for `n ≥ 1` (and `0` at `0`). -/
def floorLog2Nat (n : ℕ) : ℕ := bitLenAux n n

/-- `⌊log₂ q⌋` for a positive rational: a first guess from the bit
lengths of numerator and denominator, corrected by at most one in each
direction. -/
def floorLog2 (q : ℚ) : ℤ :=
  let guess : ℤ := (floorLog2Nat q.num.natAbs : ℤ) - (floorLog2Nat q.den : ℤ)
  if qpow2 (guess + 1) ≤ q then guess + 1
  else if q < qpow2 guess then guess - 1
  else guess

/-- Round a positive rational to the nearest binary64 double
(53-bit mantissa, round half to even). -/
def roundDoublePos (q : ℚ) : ℚ :=
  let e : ℤ := floorLog2 q - 52
  ratMulPow2 (Rat.divInt (roundHalfEvenQ (ratMulPow2 q (-e))) 1) e

/-- Round a rational to the nearest binary64 double (normal range;
overflow and subnormals do not occur in the claims' range). -/
def roundDouble (q : ℚ) : ℚ :=
  if q.num = 0 then 0
  else if q.num < 0 then -(roundDoublePos (-q)) else roundDoublePos q

/-- Python float multiplication: exact product, rounded to a double. -/
def pymul (a b : ℚ) : ℚ :=
  roundDouble (Rat.divInt (a.num * b.num) ((a.den : ℤ) * (b.den : ℤ)))

/-- Python `float(s)`: parse the decimal string, then round its exact
value to the nearest double. -/
def pyFloatOfString (s : String) : Option ℚ :=
  (parsePyNumber s).map roundDouble

/-- Left-pad a two-digit fraction part. -/
def twoDigitString (n : ℕ) : String :=
  if n < 10 then "0" ++ toString n else toString n

/-- Python's `f"\x7bx:.2f\x7d"`: the exact value of the double,
correctly rounded to two decimal places (ties to even), rendered with
two fraction digits. -/
def pyFormat2f (q : ℚ) : String :=
  let cents := roundHalfEvenQ (Rat.divInt (q.num * 100) (q.den : ℤ))
  if cents < 0 then
    "-" ++ toString ((-cents).toNat / 100) ++ "." ++ twoDigitString ((-cents).toNat % 100)
  else
    toString (cents.toNat / 100) ++ "." ++ twoDigitString (cents.toNat % 100)

/-- The double denoted by the Python literal `0.035`, the source's
default `exchange_rate`. -/
def defaultExchangeRate : ℚ := roundDouble (Rat.divInt 35 1000)

/-- Python's `s.replace(c, "")` for a one-character pattern `c`:
remove every occurrence. -/
def removeAllChar (c : Char) (s : String) : String :=
  (s.toList.filter (fun d => d ≠ c)).asString

/-- `convert_price_to_usd`: strip `฿` and `,` (rebinding `price_str`),
parse as a Python float, multiply by the exchange rate (float
multiplication) and format as `$` plus two decimals.  When
`float(price_str)` raises, the source returns the **rebound** —
already stripped — `price_str`. -/
def convert_price_to_usd (price_str : String)
    (exchange_rate : ℚ := defaultExchangeRate) : String :=
  let stripped := removeAllChar ',' (removeAllChar '฿' price_str)
  match pyFloatOfString stripped with
  | none => stripped
  | some price_thb => "$" ++ pyFormat2f (pymul price_thb exchange_rate)

/-- Python truncation `int(x)` of a float: toward zero. -/
def intTrunc (q : ℚ) : ℤ := q.num.tdiv (q.den : ℤ)

/-- The `ratings` cell after `read_products_data`'s
`pd.to_numeric(..., errors="coerce")` followed by
`create_embeddings`'s `pd.isna` fallback to `None`: an unparseable or
blank cell becomes `NaN` and then `None`; a numeric cell is kept. -/
def transform_ratings (cell : String) : Option ℚ :=
  parsePyNumber cell

/-- The `no_of_ratings` cell after `pd.to_numeric(..., errors="coerce")`
and `create_embeddings`'s branch: `NaN` ↦ `None`, otherwise `int(...)`
(with its `except` arm falling back to `None`, which the int
conversion of a finite float never triggers). -/
def transform_no_of_ratings (cell : String) : Option ℤ :=
  match parsePyNumber cell with
  | none => none
  | some q => some (intTrunc q)

/-- `save_to_vector_db`: convert each row dict with
`Product.from_dict`, logging and skipping the rows on which it raises,
then `batch_save_products` the survivors. -/
def save_to_vector_db (st : QdrantState) (rows : List PyDict) :
    Except String QdrantState :=
  batch_save_products st (rows.filterMap Product.from_dict)

/-! ## Index invariants and supporting lemmas -/

/-- No two stored points share an id (maintained by upsert). -/
def NodupIds (st : QdrantState) : Prop :=
  (st.points.map (fun pt => pt.id)).Nodup

instance (st : QdrantState) : Decidable (NodupIds st) :=
  inferInstanceAs (Decidable (List.Nodup _))

/-- Every stored payload's `product_id` equals the point id (true of
every point written by `_product_to_point`). -/
def PayloadIdConsistent (st : QdrantState) : Prop :=
  ∀ pt ∈ st.points, pt.payload.product_id = pt.id

instance (st : QdrantState) : Decidable (PayloadIdConsistent st) :=
  inferInstanceAs (Decidable (∀ pt ∈ st.points, pt.payload.product_id = pt.id))

/-- Number of stored points other than `pid` whose payload
`sub_category` is `sub`: the anchor's same-sub-category peers. -/
def samePeerCount (st : QdrantState) (pid sub : String) : ℕ :=
  (st.points.filter (fun q => q.id != pid && q.payload.sub_category == sub)).length

/-- Splitting a filter count along a second boolean predicate. -/
theorem length_filter_split {α : Type} (l : List α) (p q : α → Bool) :
    (l.filter p).length =
      (l.filter (fun x => p x && q x)).length +
        (l.filter (fun x => p x && !(q x))).length := by
  induction l with
  | nil => simp
  | cons x xs ih =>
    by_cases hp : p x <;> by_cases hq : q x <;>
      simp [List.filter_cons, hp, hq, ih] <;> omega

/-- Under a nodup projection, at most one element projects to `b`. -/
theorem length_filter_le_one_of_nodup {α β : Type} [DecidableEq β]
    (l : List α) (f : α → β) (h : (l.map f).Nodup) (b : β) :
    (l.filter (fun x => f x == b)).length ≤ 1 := by
  induction l with
  | nil => simp
  | cons x xs ih =>
    simp only [List.map_cons, List.nodup_cons] at h
    by_cases hfx : f x = b
    · have hnone : xs.filter (fun y => f y == b) = [] := by
        apply List.filter_eq_nil_iff.mpr
        intro y hy hb
        have hyb : f y = b := by simpa using hb
        exact h.1 (hfx ▸ hyb ▸ List.mem_map_of_mem f hy)
      simp [List.filter_cons, hfx, hnone]
    · simp only [List.filter_cons, beq_iff_eq, hfx, if_false]
      exact ih h.2

/-- Length of the complement filter. -/
theorem length_filter_not {α : Type} (l : List α) (q : α → Bool) :
    (l.filter (fun x => !(q x))).length = l.length - (l.filter q).length := by
  induction l with
  | nil => simp
  | cons x xs ih =>
    have hle : (xs.filter q).length ≤ xs.length := List.length_filter_le _ _
    by_cases hq : q x <;> simp [List.filter_cons, hq, ih] <;> omega

/-- Every search result is a stored point passing the filter, paired
with its distance to the query vector. -/
theorem mem_searchPoints {dist : List ℚ → List ℚ → ℚ} {st : QdrantState}
    {qv : List ℚ} {filt : IndexedPoint → Bool} {lim : ℕ}
    {x : IndexedPoint × ℚ} (hx : x ∈ searchPoints dist st qv filt lim) :
    x.1 ∈ st.points ∧ filt x.1 = true ∧ x.2 = dist qv x.1.vector := by
  have hx2 : x ∈ List.insertionSort scoreLE
      ((st.points.filter filt).map (fun pt => (pt, dist qv pt.vector))) :=
    (List.take_sublist _ _).subset hx
  have hx3 : x ∈ (st.points.filter filt).map (fun pt => (pt, dist qv pt.vector)) :=
    (List.perm_insertionSort scoreLE _).subset hx2
  obtain ⟨p, hp, hpx⟩ := List.mem_map.mp hx3
  have hp2 := List.mem_filter.mp hp
  subst hpx
  exact ⟨hp2.1, hp2.2, rfl⟩

/-- Search results are ordered by non-decreasing score. -/
theorem sorted_searchPoints (dist : List ℚ → List ℚ → ℚ) (st : QdrantState)
    (qv : List ℚ) (filt : IndexedPoint → Bool) (lim : ℕ) :
    (searchPoints dist st qv filt lim).Pairwise scoreLE :=
  (List.sorted_insertionSort scoreLE _).sublist (List.take_sublist _ _)

/-- When at least `lim` stored points pass the filter, the search
returns exactly `lim` of them. -/
theorem length_searchPoints (dist : List ℚ → List ℚ → ℚ) (st : QdrantState)
    (qv : List ℚ) (filt : IndexedPoint → Bool) (lim : ℕ)
    (h : lim ≤ (st.points.filter filt).length) :
    (searchPoints dist st qv filt lim).length = lim := by
  have hlen : (List.insertionSort scoreLE
      ((st.points.filter filt).map (fun pt => (pt, dist qv pt.vector)))).length =
      (st.points.filter filt).length := by
    rw [(List.perm_insertionSort scoreLE _).length_eq, List.length_map]
  simp [searchPoints, hlen, h]

/-- The ids of the search results are nodup when the stored ids are. -/
theorem nodup_ids_searchPoints (dist : List ℚ → List ℚ → ℚ) (st : QdrantState)
    (qv : List ℚ) (filt : IndexedPoint → Bool) (lim : ℕ)
    (hnd : NodupIds st) :
    ((searchPoints dist st qv filt lim).map (fun x => x.1.id)).Nodup := by
  have h1 : ((st.points.filter filt).map (fun pt => pt.id)).Nodup :=
    ((List.filter_sublist st.points).map _).nodup hnd
  have h2 : (((st.points.filter filt).map
      (fun pt => (pt, dist qv pt.vector))).map (fun x => x.1.id)).Nodup := by
    rwa [List.map_map]
  have h3 : ((List.insertionSort scoreLE
      ((st.points.filter filt).map (fun pt => (pt, dist qv pt.vector)))).map
        (fun x => x.1.id)).Nodup :=
    (((List.perm_insertionSort scoreLE _).map _).nodup_iff).mpr h2
  exact ((List.take_sublist _ _).map _).nodup h3

/-- **C1.** For every positive `k` and every anchor present in the
index with at least `k` other stored products sharing its
`sub_category`, `recommend` (the use case `execute`) returns exactly
`k` results, none carrying the anchor's id, all sharing the anchor's
`sub_category`, ordered by non-decreasing distance. -/
theorem recommend_exactly_k (dist : List ℚ → List ℚ → ℚ) (st : QdrantState)
    (pid : String) (k : ℕ) (a : Product)
    (hnd : NodupIds st) (hpc : PayloadIdConsistent st)
    (ha : get_product_by_id st pid = some a) (hk : 0 < k)
    (hpeers : k ≤ samePeerCount st pid a.sub_category) :
    ∃ recs, execute dist st pid k = some recs ∧
      recs.results.length = k ∧
      (∀ r ∈ recs.results, r.product.product_id ≠ pid ∧
        r.product.sub_category = a.sub_category) ∧
      (recs.results.map (fun r => r.distance)).Sorted (· ≤ ·) := by
  cases hre : retrieve st pid with
  | nil =>
    rw [get_product_by_id, hre] at ha
    exact absurd ha (by simp)
  | cons pt rest =>
    rw [get_product_by_id, hre] at ha
    have haa : point_to_product pt.payload = a := by
      simpa using ha
    subst haa
    have hgp : get_product_by_id st pid = some (point_to_product pt.payload) := by
      rw [get_product_by_id, hre]
    have hptmem : pt ∈ st.points ∧ (pt.id == pid) = true := by
      have : pt ∈ retrieve st pid := by rw [hre]; exact List.mem_cons_self pt rest
      exact List.mem_filter.mp this
    have hptid : pt.id = pid := by simpa using hptmem.2
    -- the payload filter used by the search
    set filt : IndexedPoint → Bool :=
      fun q => q.payload.sub_category == (point_to_product pt.payload).sub_category with hfilt
    -- at least k + 1 stored points pass the filter
    have hmlen : k + 1 ≤ (st.points.filter filt).length := by
      have hsplit := length_filter_split st.points filt (fun x => x.id == pid)
      have hsecond : (st.points.filter (fun x => filt x && !(x.id == pid))).length =
          samePeerCount st pid (point_to_product pt.payload).sub_category := by
        unfold samePeerCount
        congr 1
        apply List.filter_congr
        intro x _
        show (filt x && !(x.id == pid)) = (x.id != pid && x.payload.sub_category ==
          (point_to_product pt.payload).sub_category)
        simp only [hfilt, bne]
        exact Bool.and_comm _ _
      have hfirst : 1 ≤ (st.points.filter (fun x => filt x && x.id == pid)).length := by
        have hmem : pt ∈ st.points.filter (fun x => filt x && x.id == pid) := by
          apply List.mem_filter.mpr
          refine ⟨hptmem.1, ?_⟩
          simp [hfilt, hptid, point_to_product]
        exact List.length_pos.mpr (List.ne_nil_of_mem hmem)
      omega
    have hsplen : (searchPoints dist st pt.vector filt (k + 1)).length = k + 1 :=
      length_searchPoints dist st pt.vector filt (k + 1) hmlen
    have hndids := nodup_ids_searchPoints dist st pt.vector filt (k + 1) hnd
    set sp := searchPoints dist st pt.vector filt (k + 1) with hsp
    -- dropping the anchor removes at most one result
    have hcount : (sp.filter (fun r => r.1.id == pid)).length ≤ 1 :=
      length_filter_le_one_of_nodup sp (fun r => r.1.id) hndids pid
    have hflen : (sp.filter (fun r => r.1.id != pid)).length =
        sp.length - (sp.filter (fun r => r.1.id == pid)).length :=
      length_filter_not sp (fun r => r.1.id == pid)
    have hfge : k ≤ (sp.filter (fun r => r.1.id != pid)).length := by omega
    -- the use case returns the projected similar products
    have hex : execute dist st pid k = some ⟨(find_similar_products dist st pid k).map
        (fun pr => { product := { product_id := pr.1.product_id,
                                  category := pr.1.main_category,
                                  sub_category := pr.1.sub_category,
                                  price := pr.1.price_usd },
                     distance := pr.2 })⟩ := by
      simp only [execute, hgp]
    refine ⟨_, hex, ?_, ?_, ?_⟩
    · -- exactly k results
      simp only [find_similar_products, hgp, hre, List.length_map, List.length_take, hsp.symm]
      omega
    · -- no anchor id, same sub-category
      intro r hr
      simp only [find_similar_products, hgp, hre, List.map_take, List.map_map, hsp.symm] at hr
      have hr2 := (List.take_sublist _ _).subset hr
      obtain ⟨x, hxmem, hxr⟩ := List.mem_map.mp hr2
      have hxf := List.mem_filter.mp hxmem
      obtain ⟨hxst, hxfilt, _⟩ := mem_searchPoints hxf.1
      have hxid : x.1.id ≠ pid := by simpa using hxf.2
      subst hxr
      constructor
      · show (point_to_product x.1.payload).product_id ≠ pid
        rw [point_to_product]
        exact (hpc x.1 hxst) ▸ hxid
      · show (point_to_product x.1.payload).sub_category =
          (point_to_product pt.payload).sub_category
        simpa [hfilt, point_to_product] using hxfilt
    · -- non-decreasing distances
      simp only [find_similar_products, hgp, hre, List.map_take, List.map_map, hsp.symm]
      have hps : sp.Pairwise scoreLE := sorted_searchPoints dist st pt.vector filt (k + 1)
      have hpf : (sp.filter (fun r => r.1.id != pid)).Pairwise scoreLE :=
        hps.sublist (List.filter_sublist sp)
      refine List.Pairwise.sublist (List.take_sublist _ _) ?_
      exact List.pairwise_map.mpr hpf

/-- **C3.** `recommend` returns `NotFound` (`none`) exactly when no
stored point carries the requested id; when the anchor exists but has
no other stored product sharing its `sub_category`, it returns the
empty `RecommendationSet` (`some ⟨[]⟩`), never `none`. -/
theorem recommend_notfound_iff_absent (dist : List ℚ → List ℚ → ℚ)
    (st : QdrantState) (pid : String) (k : ℕ) (a : Product) :
    (execute dist st pid k = none ↔ ∀ pt ∈ st.points, pt.id ≠ pid) ∧
    (get_product_by_id st pid = some a →
      samePeerCount st pid a.sub_category = 0 →
      execute dist st pid k = some ⟨[]⟩) := by
  constructor
  · constructor
    · intro h pt hpt hid
      cases hre : retrieve st pid with
      | nil =>
        have : pt ∈ retrieve st pid :=
          List.mem_filter.mpr ⟨hpt, by simp [hid]⟩
        rw [hre] at this
        cases this
      | cons q rest =>
        have hgp : get_product_by_id st pid = some (point_to_product q.payload) := by
          rw [get_product_by_id, hre]
        rw [execute, hgp] at h
        cases h
    · intro h
      have hre : retrieve st pid = [] := by
        apply List.filter_eq_nil_iff.mpr
        intro pt hpt hb
        exact h pt hpt (by simpa using hb)
      have hgp : get_product_by_id st pid = none := by
        rw [get_product_by_id, hre]
      rw [execute, hgp]
  · intro ha hzero
    cases hre : retrieve st pid with
    | nil =>
      rw [get_product_by_id, hre] at ha
      cases ha
    | cons pt rest =>
      rw [get_product_by_id, hre] at ha
      have haa : point_to_product pt.payload = a := by simpa using ha
      have hgp : get_product_by_id st pid = some (point_to_product pt.payload) := by
        rw [get_product_by_id, hre]
      -- with zero peers, every stored point passing the sub-category
      -- filter carries the anchor's id, so the self-exclusion filter
      -- leaves nothing
      have hmatch : ∀ q ∈ st.points,
          (q.payload.sub_category == (point_to_product pt.payload).sub_category) = true →
          q.id = pid := by
        intro q hq hsub
        by_contra hne
        have hmem : q ∈ st.points.filter
            (fun r => r.id != pid && r.payload.sub_category == a.sub_category) := by
          apply List.mem_filter.mpr
          refine ⟨hq, ?_⟩
          have hsub2 : (q.payload.sub_category == a.sub_category) = true := by
            rw [← haa]; exact hsub
          simp [hsub2, hne]
        have : 0 < samePeerCount st pid a.sub_category :=
          List.length_pos.mpr (List.ne_nil_of_mem hmem)
        omega
      have hfilt : (searchPoints dist st pt.vector
          (fun q => q.payload.sub_category == (point_to_product pt.payload).sub_category)
          (k + 1)).filter (fun r => r.1.id != pid) = [] := by
        apply List.filter_eq_nil_iff.mpr
        intro x hx hb
        obtain ⟨hxst, hxfilt, _⟩ := mem_searchPoints hx
        exact (by simpa using hb : ¬x.1.id = pid) (hmatch x.1 hxst hxfilt)
      have hsims : find_similar_products dist st pid k = [] := by
        simp [find_similar_products, hgp, hre, hfilt]
      rw [execute, hgp, hsims]
      rfl

/-- The product fixture of `test_save_product`
(`src/tests/unit/infrastructure/test_qdrant_product_repository.py`),
whose `price_usd` the test asserts to be present in the stored
payload. -/
def sampleTestProduct : Product :=
  { product_id := "test123", product_name := "Test Product",
    main_category := "Electronics", sub_category := "Smartphones",
    ratings := some (mkRat 9 2), no_of_ratings := some 100,
    price := "$599.99", price_usd := some "$599.99",
    embedding := some [mkRat 1 10, mkRat 2 10, mkRat 3 10, mkRat 4 10] }

/-- A same-sub-category peer of `sampleTestProduct` (the test's
`similar1` fixture), carrying its own `price_usd`. -/
def samplePeerProduct : Product :=
  { product_id := "similar1", product_name := "Similar Product 1",
    main_category := "Electronics", sub_category := "Smartphones",
    ratings := some (mkRat 43 10), no_of_ratings := some 80,
    price := "$649.99", price_usd := some "$649.99",
    embedding := some [mkRat 15 100, mkRat 25 100, mkRat 35 100, mkRat 45 100] }

/-- **C2** (the code contradicts it, and its own test): the payload
built by `_product_to_point` for the test fixture has no `price_usd`
key, the product surfaced back by `_point_to_product` has
`price_usd = None` although the stored product carried one, and the
recommendation projection therefore carries `price = None` rather than
the stored product's `price_usd`. -/
theorem stored_payload_loses_price_usd :
    dictLookup "price_usd" (product_to_point_payload_dict sampleTestProduct) = none ∧
    sampleTestProduct.price_usd = some "$599.99" ∧
    (point_to_product (productPayload sampleTestProduct)).price_usd = none ∧
    samplePeerProduct.price_usd = some "$649.99" ∧
    ∃ st, batch_save_products ⟨[]⟩ [sampleTestProduct, samplePeerProduct] =
        Except.ok st ∧
      execute (fun _ _ => 0) st "test123" 1 =
        some ⟨[{ product := { product_id := "similar1",
                              category := "Electronics",
                              sub_category := "Smartphones",
                              price := none },
                 distance := 0 }]⟩ := by
  refine ⟨rfl, rfl, rfl, rfl, _, rfl, ?_⟩
  decide

/-- **C4 counterexample**: a Gateway failure during
`get_product_by_id` (here, a raised connection error) produces exactly
the same observable result as an absent id — `None` — instead of a
distinct `IndexUnavailable` error. -/
theorem gateway_failure_conflated_with_absence :
    get_product_by_id_fallible (QdrantResult.err "connection refused") =
      get_product_by_id_fallible (QdrantResult.ok []) ∧
    get_product_by_id_fallible (QdrantResult.err "connection refused") = none :=
  ⟨rfl, rfl⟩

/-- **C4 (amended).** Every backend failure in `get_product_by_id` is
caught by its `except Exception` arm and reported as `None` — the same
value as "not found" — so Gateway failures are conflated with absence
and no distinct error is ever surfaced by this read. -/
theorem gateway_failure_swallowed (e : String) :
    get_product_by_id_fallible (QdrantResult.err e) = none := rfl

/-- A product whose embedding length (3) differs from the configured
dimensionality used in the repository default (384). -/
def shortVectorProduct : Product :=
  { product_id := "p1", product_name := "P", main_category := "M",
    sub_category := "S", price := "$1",
    embedding := some [1, 2, 3] }

/-- **C5 counterexample**: `save_product` with a vector of length 3
under configured dimensionality 384 does **not** fail with a
validation error — it succeeds and modifies the index for that id. -/
theorem save_wrong_dimension_succeeds :
    save_product 384 ⟨[]⟩ shortVectorProduct =
      Except.ok ⟨[⟨"p1", [1, 2, 3], productPayload shortVectorProduct⟩]⟩ ∧
    (shortVectorProduct.embedding.getD []).length = 3 ∧ (3 : ℕ) ≠ 384 := by
  refine ⟨rfl, rfl, by decide⟩

/-- **C5 (amended).** `save_product` fails (with the `ValueError`
"Product must have an embedding") exactly when the embedding is
missing or empty; no dimensionality check is performed, so any
non-empty vector — of whatever length — is accepted and upserted. -/
theorem save_product_ok_iff (vector_size : ℕ) (st : QdrantState) (p : Product) :
    (∃ st2, save_product vector_size st p = Except.ok st2) ↔
      ∃ v, p.embedding = some v ∧ v ≠ [] := by
  constructor
  · rintro ⟨st2, h⟩
    rw [save_product] at h
    cases hemb : p.embedding with
    | none => rw [product_to_point, hemb] at h; cases h
    | some v =>
      cases v with
      | nil => rw [product_to_point, hemb] at h; cases h
      | cons x xs => exact ⟨x :: xs, rfl, by simp⟩
  · rintro ⟨v, hv, hne⟩
    cases v with
    | nil => exact absurd rfl hne
    | cons x xs =>
      exact ⟨_, by rw [save_product, product_to_point, hv]⟩

set_option maxRecDepth 10000 in
/-- **C7 counterexample**: on a parse failure the source returns the
**stripped** string, not the original input — `"฿N/A"` comes back as
`"N/A"`. -/
theorem convert_price_not_unchanged :
    convert_price_to_usd "฿N/A" = "N/A" ∧
    convert_price_to_usd "฿N/A" ≠ "฿N/A" := by
  constructor
  · decide
  · decide

set_option maxRecDepth 10000 in
/-- **C7 (amended).** `convert_price_to_usd "฿7,999"` at the default
rate 0.035 returns exactly `"$279.97"`; every input that fails to
parse as a number is returned with the `฿` currency symbol and comma
separators stripped but otherwise unchanged, never raising — so an
input containing neither, such as `"N/A"`, passes through unchanged. -/
theorem convert_price_spec (s : String)
    (hfail : pyFloatOfString (removeAllChar ',' (removeAllChar '฿' s)) = none) :
    convert_price_to_usd "฿7,999" = "$279.97" ∧
    convert_price_to_usd s = removeAllChar ',' (removeAllChar '฿' s) ∧
    convert_price_to_usd "N/A" = "N/A" := by
  refine ⟨by decide, ?_, by decide⟩
  rw [convert_price_to_usd, hfail]

set_option maxRecDepth 10000 in
/-- Witness for `convert_price_spec` at the unparseable input
`"N/A"`. -/
theorem convert_price_spec_witness :
    pyFloatOfString (removeAllChar ',' (removeAllChar '฿' "N/A")) = none ∧
    (convert_price_to_usd "฿7,999" = "$279.97" ∧
      convert_price_to_usd "N/A" = removeAllChar ',' (removeAllChar '฿' "N/A") ∧
      convert_price_to_usd "N/A" = "N/A") :=
  ⟨by decide, convert_price_spec "N/A" (by decide)⟩

/-- Skipping the elements on which `f` fails does not change a
`filterMap`. -/
theorem filterMap_filter_isSome {α β : Type} (f : α → Option β) (l : List α) :
    (l.filter (fun x => (f x).isSome)).filterMap f = l.filterMap f := by
  induction l with
  | nil => rfl
  | cons x xs ih =>
    cases hfx : f x <;> simp [List.filter_cons, List.filterMap_cons, hfx, ih]

/-- `batch_save_products`' point-building loop succeeds on a list of
products that all carry non-empty embeddings, and the built points
carry the products' ids. -/
theorem buildPoints_ok (ps : List Product)
    (h : ∀ p ∈ ps, ∃ v, p.embedding = some v ∧ v ≠ []) :
    ∃ pts, buildPoints ps = Except.ok pts ∧
      pts.map (fun pt => pt.id) = ps.map (fun p => p.product_id) := by
  induction ps with
  | nil => exact ⟨[], rfl, rfl⟩
  | cons p ps ih =>
    obtain ⟨v, hv, hne⟩ := h p (List.mem_cons_self p ps)
    obtain ⟨pts, hpts, hids⟩ := ih (fun q hq => h q (List.mem_cons_of_mem p hq))
    cases v with
    | nil => exact absurd rfl hne
    | cons x xs =>
      refine ⟨⟨p.product_id, x :: xs, productPayload p⟩ :: pts, ?_, ?_⟩
      · rw [buildPoints, product_to_point, hv, hpts]
      · simp [hids]

/-- An id present in the old state or equal to the upserted point's id
is present after `upsertOne`. -/
theorem exists_id_upsertOne (st : QdrantState) (q : IndexedPoint) (y : String)
    (h : (∃ pt ∈ st.points, pt.id = y) ∨ y = q.id) :
    ∃ pt ∈ (upsertOne st q).points, pt.id = y := by
  rw [upsertOne]
  by_cases hany : st.points.any (fun r => r.id == q.id)
  · simp only [hany, if_true]
    rcases h with ⟨pt, hmem, hid⟩ | rfl
    · by_cases hpq : (pt.id == q.id) = true
      · have hq2 : pt.id = q.id := by simpa using hpq
        refine ⟨q, ?_, hq2 ▸ hid⟩
        have := List.mem_map_of_mem (fun r => if r.id == q.id then q else r) hmem
        simpa [hpq] using this
      · refine ⟨pt, ?_, hid⟩
        have := List.mem_map_of_mem (fun r => if r.id == q.id then q else r) hmem
        simpa [hpq] using this
    · obtain ⟨r, hrmem, hrq⟩ := List.any_eq_true.mp hany
      refine ⟨q, ?_, rfl⟩
      have := List.mem_map_of_mem (fun r => if r.id == q.id then q else r) hrmem
      simpa [hrq] using this
  · have hany2 : st.points.any (fun r => r.id == q.id) = false := by
      simpa using hany
    simp only [hany2, Bool.false_eq_true, if_false]
    rcases h with ⟨pt, hmem, hid⟩ | rfl
    · exact ⟨pt, List.mem_append_left _ hmem, hid⟩
    · exact ⟨q, List.mem_append_right _ (List.mem_singleton_self q), rfl⟩

/-- An id present in the old state or among the upserted points' ids
is present after `upsertMany`. -/
theorem exists_id_upsertMany (pts : List IndexedPoint) :
    ∀ (st : QdrantState) (y : String),
      ((∃ pt ∈ st.points, pt.id = y) ∨ y ∈ pts.map (fun pt => pt.id)) →
      ∃ pt ∈ (upsertMany st pts).points, pt.id = y := by
  induction pts with
  | nil =>
    intro st y h
    rcases h with h | h
    · exact h
    · cases h
  | cons q rest ih =>
    intro st y h
    show ∃ pt ∈ (upsertMany (upsertOne st q) rest).points, pt.id = y
    apply ih
    rcases h with h | h
    · exact Or.inl (exists_id_upsertOne st q y (Or.inl h))
    · rw [List.map_cons] at h
      rcases List.mem_cons.mp h with hy | h2
      · exact Or.inl (exists_id_upsertOne st q y (Or.inr hy))
      · exact Or.inr h2

/-- **C6.** In the persist stage (`save_to_vector_db`), rows that fail
to convert (`Product.from_dict` raises) are skipped individually:
removing them changes nothing, the batch still succeeds, and every row
that does convert is persisted under its `product_id`.  (Rows reaching
this stage carry the embedding attached by `create_embeddings`, which
is the stated hypothesis.) -/
theorem bad_rows_skipped (st : QdrantState) (rows : List PyDict)
    (hemb : ∀ r ∈ rows, ∀ p, Product.from_dict r = some p →
      ∃ v, p.embedding = some v ∧ v ≠ []) :
    save_to_vector_db st rows =
      save_to_vector_db st (rows.filter (fun r => (Product.from_dict r).isSome)) ∧
    ∃ st2, save_to_vector_db st rows = Except.ok st2 ∧
      ∀ r ∈ rows, ∀ p, Product.from_dict r = some p →
        ∃ pt ∈ st2.points, pt.id = p.product_id := by
  have hprods : ∀ p ∈ rows.filterMap Product.from_dict,
      ∃ v, p.embedding = some v ∧ v ≠ [] := by
    intro p hp
    obtain ⟨r, hr, hfr⟩ := List.mem_filterMap.mp hp
    exact hemb r hr p hfr
  obtain ⟨pts, hpts, hids⟩ := buildPoints_ok _ hprods
  constructor
  · rw [save_to_vector_db, save_to_vector_db, filterMap_filter_isSome]
  · refine ⟨upsertMany st pts, ?_, ?_⟩
    · rw [save_to_vector_db, batch_save_products, hpts]
    · intro r hr p hfp
      apply exists_id_upsertMany
      right
      rw [hids]
      exact List.mem_map_of_mem _ (List.mem_filterMap.mpr ⟨r, hr, hfp⟩)

/-- A well-formed pipeline row: full dict with a non-empty embedding. -/
def c6GoodRow : PyDict :=
  [("product_id", .pstr "g1"), ("product_name", .pstr "Good"),
   ("main_category", .pstr "M"), ("sub_category", .pstr "S"),
   ("ratings", .pnone), ("no_of_ratings", .pnone),
   ("price", .pstr "$1"), ("price_usd", .pstr "$0.04"),
   ("embedding", .plist [1, 2])]

/-- The `Product` that `c6GoodRow` converts to. -/
def c6GoodProduct : Product :=
  { product_id := "g1", product_name := "Good", main_category := "M",
    sub_category := "S", price := "$1", price_usd := some "$0.04",
    embedding := some [1, 2] }

/-- A row on which `Product.from_dict` raises (required `product_id`
missing — as when the catalog's price cell was `NaN` in the source's
case, pydantic rejects the row). -/
def c6BadRow : PyDict := [("product_name", .pstr "Bad")]

/-- Witness for `bad_rows_skipped`: one good row and one bad row. -/
theorem bad_rows_skipped_witness :
    (∀ r ∈ [c6GoodRow, c6BadRow], ∀ p, Product.from_dict r = some p →
      ∃ v, p.embedding = some v ∧ v ≠ []) ∧
    (save_to_vector_db ⟨[]⟩ [c6GoodRow, c6BadRow] =
        save_to_vector_db ⟨[]⟩
          ([c6GoodRow, c6BadRow].filter (fun r => (Product.from_dict r).isSome)) ∧
      ∃ st2, save_to_vector_db ⟨[]⟩ [c6GoodRow, c6BadRow] = Except.ok st2 ∧
        ∀ r ∈ [c6GoodRow, c6BadRow], ∀ p, Product.from_dict r = some p →
          ∃ pt ∈ st2.points, pt.id = p.product_id) := by
  have hemb : ∀ r ∈ [c6GoodRow, c6BadRow], ∀ p, Product.from_dict r = some p →
      ∃ v, p.embedding = some v ∧ v ≠ [] := by
    intro r hr p hfp
    rcases List.mem_cons.mp hr with rfl | hr2
    · have heval : Product.from_dict c6GoodRow = some c6GoodProduct := by decide
      rw [heval] at hfp
      have hp : c6GoodProduct = p := by simpa using hfp
      exact ⟨[1, 2], by rw [← hp]; rfl, by simp⟩
    · rcases List.mem_singleton.mp hr2 with rfl
      have heval : Product.from_dict c6BadRow = none := by decide
      rw [heval] at hfp
      cases hfp
  exact ⟨hemb, bad_rows_skipped ⟨[]⟩ [c6GoodRow, c6BadRow] hemb⟩

/-- **C8.** Numeric coercion in the pipeline's ingest/transform: a
blank or unparseable `ratings` or `no_of_ratings` cell becomes the
explicit absent value (`None`) — never zero and never an error — and a
parseable `no_of_ratings` is coerced to an integer (Python `int`,
truncation toward zero). -/
theorem numeric_coercion_absent (cell : String) :
    (parsePyNumber cell = none →
      transform_ratings cell = none ∧ transform_no_of_ratings cell = none) ∧
    (∀ q, parsePyNumber cell = some q →
      transform_ratings cell = some q ∧
      transform_no_of_ratings cell = some (intTrunc q)) ∧
    parsePyNumber "" = none ∧
    parsePyNumber "not a number" = none ∧
    transform_no_of_ratings "" ≠ some 0 ∧
    transform_no_of_ratings "4.5" = some 4 := by
  refine ⟨?_, ?_, by decide, by decide, by decide, by decide⟩
  · intro h
    rw [transform_ratings, h, transform_no_of_ratings, h]
    exact ⟨rfl, rfl⟩
  · intro q h
    rw [transform_ratings, h, transform_no_of_ratings, h]
    exact ⟨rfl, rfl⟩

/-- Witness for `numeric_coercion_absent` at the blank cell and at a
parseable cell. -/
theorem numeric_coercion_absent_witness :
    (parsePyNumber "" = none ∧
      transform_ratings "" = none ∧ transform_no_of_ratings "" = none) ∧
    (parsePyNumber "80" = some 80 ∧
      transform_ratings "80" = some 80 ∧
      transform_no_of_ratings "80" = some (intTrunc 80)) :=
  ⟨⟨by decide, (numeric_coercion_absent "").1 (by decide)⟩,
   ⟨by decide, (numeric_coercion_absent "80").2.1 80 (by decide)⟩⟩

/-- Filtering a mapped list is mapping the correspondingly filtered
list. -/
theorem filter_of_map {α β : Type} (f : α → β) (p : β → Bool) (l : List α) :
    (l.map f).filter p = (l.filter (fun x => p (f x))).map f := by
  induction l with
  | nil => rfl
  | cons x xs ih =>
    by_cases h : p (f x) <;> simp [List.filter_cons, h, ih]

/-- Under a nodup projection, the filter for a projected value reduces
to the singleton of the member carrying it. -/
theorem filter_eq_singleton_of_nodup {α β : Type} [DecidableEq β]
    (l : List α) (f : α → β) (hnd : (l.map f).Nodup) (b : β) (a : α)
    (ha : a ∈ l) (hab : f a = b) :
    l.filter (fun x => f x == b) = [a] := by
  induction l with
  | nil => cases ha
  | cons x xs ih =>
    simp only [List.map_cons, List.nodup_cons] at hnd
    rcases List.mem_cons.mp ha with rfl | hmem
    · have hnone : xs.filter (fun y => f y == b) = [] := by
        apply List.filter_eq_nil_iff.mpr
        intro y hy hb
        have hyb : f y = b := by simpa using hb
        exact hnd.1 (hab ▸ hyb ▸ List.mem_map_of_mem f hy)
      simp [List.filter_cons, hab, hnone]
    · have hxb : ¬(f x = b) := by
        intro hxb
        exact hnd.1 (by rw [hxb, ← hab]; exact List.mem_map_of_mem f hmem)
      simp only [List.filter_cons, beq_iff_eq, hxb, if_false]
      exact ih hnd.2 hmem

/-- `retrieve` after a single upsert: the upserted id now resolves to
the new point; other ids are untouched. -/
theorem retrieve_upsertOne (st : QdrantState) (q : IndexedPoint) (x : String)
    (hnd : NodupIds st) :
    retrieve (upsertOne st q) x = if q.id = x then [q] else retrieve st x := by
  rw [retrieve, upsertOne]
  by_cases hany : st.points.any (fun r => r.id == q.id)
  · simp only [hany, if_true]
    rw [filter_of_map]
    by_cases hqx : q.id = x
    · subst hqx
      simp only [if_pos rfl]
      have hpred : ∀ r ∈ st.points,
          ((if r.id == q.id then q else r).id == q.id) = (r.id == q.id) := by
        intro r _
        by_cases h : (r.id == q.id) = true <;> simp [h]
      rw [List.filter_congr hpred]
      obtain ⟨r0, hr0mem, hr0id⟩ := List.any_eq_true.mp hany
      have hid0 : r0.id = q.id := by simpa using hr0id
      rw [filter_eq_singleton_of_nodup st.points (fun r => r.id) hnd q.id r0 hr0mem hid0]
      simp [hid0]
    · simp only [if_neg hqx]
      have hpred : ∀ r ∈ st.points,
          ((if r.id == q.id then q else r).id == x) = (r.id == x) := by
        intro r _
        by_cases h : (r.id == q.id) = true
        · have hr : r.id = q.id := by simpa using h
          simp [h, hqx, hr]
        · simp [h]
      rw [List.filter_congr hpred, retrieve]
      have hmapid : ∀ r ∈ st.points.filter (fun r => r.id == x),
          (if r.id == q.id then q else r) = r := by
        intro r hr
        have hrx : r.id = x := by simpa using (List.mem_filter.mp hr).2
        have : ¬(r.id == q.id) = true := by simp [hrx]; exact fun h => hqx h.symm
        simp [this]
      rw [List.map_congr_left hmapid]
      simp
  · have hany2 : st.points.any (fun r => r.id == q.id) = false := by
      simpa using hany
    simp only [hany2, Bool.false_eq_true, if_false]
    rw [List.filter_append]
    by_cases hqx : q.id = x
    · subst hqx
      have hnone : st.points.filter (fun r => r.id == q.id) = [] := by
        apply List.filter_eq_nil_iff.mpr
        intro r hr hb
        exact (List.any_eq_false.mp hany2) r hr hb
      rw [if_pos rfl, hnone]
      simp
    · rw [if_neg hqx, retrieve]
      have : ((q.id == x) = false) := by simpa using hqx
      simp [List.filter_cons, this]

/-- `upsertOne` preserves the nodup-ids invariant. -/
theorem nodupIds_upsertOne (st : QdrantState) (q : IndexedPoint)
    (hnd : NodupIds st) : NodupIds (upsertOne st q) := by
  rw [NodupIds, upsertOne]
  by_cases hany : st.points.any (fun r => r.id == q.id)
  · simp only [hany, if_true]
    rw [List.map_map]
    have : ∀ r ∈ st.points,
        ((fun pt => pt.id) ∘ fun r => if r.id == q.id then q else r) r = r.id := by
      intro r _
      by_cases h : (r.id == q.id) = true
      · have : r.id = q.id := by simpa using h
        simp [Function.comp, h, this]
      · simp [Function.comp, h]
    rw [List.map_congr_left this]
    exact hnd
  · have hany2 : st.points.any (fun r => r.id == q.id) = false := by
      simpa using hany
    simp only [hany2, Bool.false_eq_true, if_false]
    rw [List.map_append]
    apply List.Nodup.append hnd (by simp)
    intro a ha hb
    have hbq : a = q.id := by simpa using hb
    have := List.any_eq_false.mp hany2
    obtain ⟨r, hr, hrid⟩ := List.mem_map.mp ha
    exact this r hr (by simp [hrid, hbq])

/-- The last point in `pts` carrying id `x`, if any: the point that a
sequence of upserts leaves stored under `x`. -/
def lastWithId (pts : List IndexedPoint) (x : String) : Option IndexedPoint :=
  match pts with
  | [] => none
  | q :: rest =>
    match lastWithId rest x with
    | some pt => some pt
    | none => if q.id = x then some q else none

/-- `retrieve` after a batch of upserts: an id among the batch resolves
to the last point of the batch carrying it; other ids are untouched.
The nodup-ids invariant is preserved. -/
theorem retrieve_upsertMany (pts : List IndexedPoint) :
    ∀ st : QdrantState, NodupIds st →
      NodupIds (upsertMany st pts) ∧
      ∀ x, retrieve (upsertMany st pts) x =
        match lastWithId pts x with
        | some pt => [pt]
        | none => retrieve st x := by
  induction pts with
  | nil => exact fun st hnd => ⟨hnd, fun x => rfl⟩
  | cons q rest ih =>
    intro st hnd
    obtain ⟨hnd2, hret⟩ := ih (upsertOne st q) (nodupIds_upsertOne st q hnd)
    refine ⟨hnd2, fun x => ?_⟩
    have hstep : upsertMany st (q :: rest) = upsertMany (upsertOne st q) rest := rfl
    rw [hstep, hret x]
    cases hlast : lastWithId rest x with
    | some pt =>
      rw [show lastWithId (q :: rest) x = some pt by rw [lastWithId, hlast]]
    | none =>
      rw [retrieve_upsertOne st q x hnd]
      by_cases hqx : q.id = x
      · rw [show lastWithId (q :: rest) x = some q by
          rw [lastWithId, hlast]; simp [hqx]]
        simp [hqx]
      · rw [show lastWithId (q :: rest) x = none by
          rw [lastWithId, hlast]; simp [hqx]]
        simp [hqx]

/-- **C9.** Running the persist stage twice on identical input (the
embedding model being deterministic, two runs build identical rows)
leaves the index observably unchanged: for every id, the stored point
(vector and payload) after the second run is the one after the first,
and no id is ever duplicated. -/
theorem pipeline_idempotent (st st1 st2 : QdrantState) (rows : List PyDict)
    (hnd : NodupIds st)
    (h1 : save_to_vector_db st rows = Except.ok st1)
    (h2 : save_to_vector_db st1 rows = Except.ok st2) :
    (∀ x, retrieve st2 x = retrieve st1 x) ∧ NodupIds st1 ∧ NodupIds st2 := by
  rw [save_to_vector_db, batch_save_products] at h1 h2
  cases hbp : buildPoints (rows.filterMap Product.from_dict) with
  | error e => rw [hbp] at h1; cases h1
  | ok pts =>
    rw [hbp] at h1 h2
    have hst1 : upsertMany st pts = st1 := by
      injection h1
    have hst2 : upsertMany st1 pts = st2 := by
      injection h2
    obtain ⟨hnd1, hret1⟩ := retrieve_upsertMany pts st hnd
    rw [hst1] at hnd1 hret1
    obtain ⟨hnd2, hret2⟩ := retrieve_upsertMany pts st1 hnd1
    rw [hst2] at hnd2 hret2
    refine ⟨fun x => ?_, hnd1, hnd2⟩
    rw [hret2 x]
    cases hlast : lastWithId pts x with
    | some pt => rw [hret1 x, hlast]
    | none => rfl

/-- The state left by persisting `c6GoodRow` into an empty index. -/
def c9StateOne : QdrantState :=
  ⟨[⟨"g1", [1, 2], productPayload c6GoodProduct⟩]⟩

/-- Witness for `pipeline_idempotent`: persisting the same single-row
batch twice from the empty index. -/
theorem pipeline_idempotent_witness :
    NodupIds (⟨[]⟩ : QdrantState) ∧
    save_to_vector_db ⟨[]⟩ [c6GoodRow] = Except.ok c9StateOne ∧
    save_to_vector_db c9StateOne [c6GoodRow] = Except.ok c9StateOne ∧
    retrieve c9StateOne "g1" = retrieve c9StateOne "g1" ∧
    NodupIds c9StateOne :=
  ⟨by decide, rfl, rfl,
   (pipeline_idempotent ⟨[]⟩ c9StateOne c9StateOne [c6GoodRow]
      (by decide) rfl rfl).1 "g1",
   (pipeline_idempotent ⟨[]⟩ c9StateOne c9StateOne [c6GoodRow]
      (by decide) rfl rfl).2.2⟩

/-- Payload of the anchor point in the concrete scenario index. -/
def c1AnchorPayload : Payload :=
  ⟨"P1", "Anchor", "Electronics", "Smartphones", none, none, "$1"⟩

/-- Payload of the lone-sub-category point in the scenario index. -/
def c1LaptopPayload : Payload :=
  ⟨"P4", "Laptop", "Electronics", "Laptops", none, none, "$4"⟩

/-- A concrete index: anchor `P1` with two `Smartphones` peers and one
`Laptops` product with no peer. -/
def c1State : QdrantState :=
  ⟨[⟨"P1", [1, 0], c1AnchorPayload⟩,
    ⟨"P2", [0, 1], ⟨"P2", "Peer Two", "Electronics", "Smartphones", none, none, "$2"⟩⟩,
    ⟨"P3", [1, 1], ⟨"P3", "Peer Three", "Electronics", "Smartphones", none, none, "$3"⟩⟩,
    ⟨"P4", [2, 1], c1LaptopPayload⟩]⟩

/-- Witness for `recommend_exactly_k`: anchor `P1` with two
same-sub-category peers, `k = 2`. -/
theorem recommend_exactly_k_witness :
    NodupIds c1State ∧ PayloadIdConsistent c1State ∧
    get_product_by_id c1State "P1" = some (point_to_product c1AnchorPayload) ∧
    0 < 2 ∧
    2 ≤ samePeerCount c1State "P1" (point_to_product c1AnchorPayload).sub_category ∧
    (∃ recs, execute (fun _ _ => 0) c1State "P1" 2 = some recs ∧
      recs.results.length = 2 ∧
      (∀ r ∈ recs.results, r.product.product_id ≠ "P1" ∧
        r.product.sub_category = (point_to_product c1AnchorPayload).sub_category) ∧
      (recs.results.map (fun r => r.distance)).Sorted (· ≤ ·)) :=
  ⟨by decide, by decide, rfl, by decide, by decide,
   recommend_exactly_k (fun _ _ => 0) c1State "P1" 2
     (point_to_product c1AnchorPayload)
     (by decide) (by decide) rfl (by decide) (by decide)⟩

/-- Witness for `recommend_notfound_iff_absent`: an absent id, and the
peerless anchor `P4`. -/
theorem recommend_notfound_iff_absent_witness :
    (execute (fun _ _ => 0) c1State "missing" 3 = none ↔
      ∀ pt ∈ c1State.points, pt.id ≠ "missing") ∧
    execute (fun _ _ => 0) c1State "P4" 3 = some ⟨[]⟩ :=
  ⟨(recommend_notfound_iff_absent (fun _ _ => 0) c1State "missing" 3
      (point_to_product c1LaptopPayload)).1,
   (recommend_notfound_iff_absent (fun _ _ => 0) c1State "P4" 3
      (point_to_product c1LaptopPayload)).2 rfl (by decide)⟩

/-- **C10.** For every `Product` value `p`,
`Product.from_dict (p.to_dict)` reconstructs exactly `p`: the dict
serialization round-trips over all nine fields, including the four
optional ones. -/
theorem Product.from_dict_to_dict (p : Product) :
    Product.from_dict p.to_dict = some p := by
  obtain ⟨pid, pname, mcat, scat, r, nr, price, pu, emb⟩ := p
  cases r <;> cases nr <;> cases pu <;> cases emb <;> rfl
